import Mathlib

/-!
A verification development for the `bi_v2` nightly batch pipeline.

It shallowly embeds the two algorithmic cores of the repository:

* the incremental reconciliation engine of `sample_delivery_fact.py`
  (`SampleDeliveryFactETL.run`): set-differencing warehouse ids against
  source ids, merging the delta batch's ids into the delete set, and
  executing delete-then-insert in one transaction;
* the demand–supply allocation engine of `availability_calculation_fact.py`
  (`AvailabilityCalculationFactETL.run`): the vectorized stock pre-filter
  (Phase A) and the FIFO supply-consumption loop (Phase B).

Python floats are embedded as rationals (`ℚ`), `None`-able columns as
`Option`, pandas date columns as `Option Int` (the parsed value, or `none`
for a coercion failure), and Python `set`s of id strings as `Finset String`.
-/

namespace BiV2

/-! ## Reconciliation engine: `sample_delivery_fact.py` -/

/-- One raw row of the delta batch, as fetched from
`SAPSR3.ZCON_V_SAMPLE_ORDERS` with `AEDAT = yesterday` (the `results`
dataframe).  Dates are modelled post-coercion (`Option Int`), quantities
post-`to_numeric(...).fillna(0)` (`ℚ`). -/
structure SampleRaw where
  lfart : String
  vbeln : String
  matnr : String
  wadat : Option Int
  wadat_ist : Option Int
  wbstk : Option String
  kunnr : String
  vkorg : String
  spart : String
  vtweg : String
  salesid : String
  lfimg : ℚ
  lsmeng : ℚ
  aedat : Option Int
  erdat : Option Int
deriving DecidableEq

/-- One row inserted into `TABLE_SAMPLE_DELIVERY_FACT`, following
`COLUMN_MAPPING`.  `custId`/`materialId` are `Option Int`: the code keeps
lookup misses as `None` (`insert_df.where(pd.notnull(...), None)`). -/
structure SampleRecord where
  deliveryId : String
  deliveryType : String
  goodsIssueDate : Option Int
  realGoodsIssueDate : Option Int
  status : String
  modifiedDate : Option Int
  custId : Option Int
  materialId : Option Int
  salesOrganization : String
  salesId : String
  qty : ℚ
  qtyOrdered : ℚ
  createdDate : Option Int
deriving DecidableEq

/-- The per-row transformation of the delta batch (lookups, fallback
customer key, `wbstk.fillna("A")`, `ModifiedDate = aedat where notna else
erdat`, column mapping).  Embeds lines 161–206 of
`sample_delivery_fact.py`. -/
def sampleInsertRow (customerMap materialMap : String → Option Int)
    (defaultChannel : String) (r : SampleRaw) : SampleRecord :=
  let key1 := r.vkorg ++ r.vtweg ++ r.spart ++ r.kunnr
  let key2 := r.vkorg ++ defaultChannel ++ r.spart ++ r.kunnr
  { deliveryId := r.vbeln
    deliveryType := r.lfart
    goodsIssueDate := r.wadat
    realGoodsIssueDate := r.wadat_ist
    status := r.wbstk.getD "A"
    modifiedDate := (r.aedat).orElse (fun _ => r.erdat)
    custId := (customerMap key1).orElse (fun _ => customerMap key2)
    materialId := materialMap r.matnr
    salesOrganization := r.vkorg
    salesId := r.salesid
    qty := r.lfimg
    qtyOrdered := r.lsmeng
    createdDate := r.erdat }

/-- `insert_records`: built only when the delta batch is non-empty, one
record per delta row (no row is dropped). -/
def sampleInsertRecords (customerMap materialMap : String → Option Int)
    (defaultChannel : String) (results : List SampleRaw) : List SampleRecord :=
  if results.isEmpty then []
  else results.map (sampleInsertRow customerMap materialMap defaultChannel)

/-- `ids_to_delete = existing_ids.difference(all_ids)` (line 108). -/
def idsToDeleteBase (existing_ids all_ids : Finset String) : Finset String :=
  existing_ids \ all_ids

/-- `touched`: the natural ids appearing in the delta batch. -/
def touchedIds (results : List SampleRaw) : Finset String :=
  (results.map (fun r => r.salesid)).toFinset

/-- The id set actually handed to the delete statement:
`ids_to_delete.update(results["salesid"])` runs only when the delta batch
is non-empty (lines 132–138). -/
def runDeleteIds (existing_ids all_ids : Finset String)
    (results : List SampleRaw) : Finset String :=
  if results.isEmpty then idsToDeleteBase existing_ids all_ids
  else idsToDeleteBase existing_ids all_ids ∪ touchedIds results

/-- A statement executed inside the single `con_dw.begin()` transaction. -/
inductive DbStmt where
  | del (ids : Finset String)
  | ins (rows : List SampleRecord)
deriving DecidableEq

/-- The transaction body of `SampleDeliveryFactETL.run` (lines 220–229):
the delete (if `delete_params` is non-empty) followed by the insert (if
`insert_records` is non-empty).  The early return at line 124 produces the
same empty statement list. -/
def runTransaction (customerMap materialMap : String → Option Int)
    (defaultChannel : String) (existing_ids all_ids : Finset String)
    (results : List SampleRaw) : List DbStmt :=
  let ids := runDeleteIds existing_ids all_ids results
  let recs := sampleInsertRecords customerMap materialMap defaultChannel results
  (if ids = ∅ then [] else [DbStmt.del ids])
    ++ (if recs = [] then [] else [DbStmt.ins recs])

/-- Effect of one statement on the warehouse table, viewed as the set of
`SalesId` values present (`DELETE ... WHERE SalesId = :b_SalesId` /
bulk insert). -/
def applyStmt (table : Finset String) : DbStmt → Finset String
  | DbStmt.del ids => table \ ids
  | DbStmt.ins rows => table ∪ (rows.map (fun r => r.salesId)).toFinset

/-- The warehouse id set after the run's transaction commits. -/
def applyRun (customerMap materialMap : String → Option Int)
    (defaultChannel : String) (existing_ids all_ids : Finset String)
    (results : List SampleRaw) (table : Finset String) : Finset String :=
  (runTransaction customerMap materialMap defaultChannel existing_ids all_ids
    results).foldl applyStmt table

/-! ### Reconciliation lemmas -/

theorem sampleInsertRow_salesId (cm mm : String → Option Int) (dc : String)
    (r : SampleRaw) : (sampleInsertRow cm mm dc r).salesId = r.salesid := rfl

theorem sampleRows_salesIds (cm mm : String → Option Int) (dc : String) :
    ∀ l : List SampleRaw,
      (l.map (sampleInsertRow cm mm dc)).map (fun q => q.salesId)
        = l.map (fun q => q.salesid)
  | [] => rfl
  | r :: rs => by
    have ih := sampleRows_salesIds cm mm dc rs
    simp only [List.map_cons, ih]
    rfl

theorem sampleInsertRecords_salesIds (cm mm : String → Option Int) (dc : String)
    (results : List SampleRaw) :
    ((sampleInsertRecords cm mm dc results).map (fun r => r.salesId)).toFinset
      = touchedIds results := by
  unfold sampleInsertRecords touchedIds
  cases results with
  | nil => simp
  | cons r rs =>
    rw [if_neg (by simp), sampleRows_salesIds]

theorem runDeleteIds_eq (existing_ids all_ids : Finset String)
    (results : List SampleRaw) :
    runDeleteIds existing_ids all_ids results
      = (existing_ids \ all_ids) ∪ touchedIds results := by
  unfold runDeleteIds idsToDeleteBase touchedIds
  cases results with
  | nil => simp
  | cons r rs => simp

theorem applyRun_eq (cm mm : String → Option Int) (dc : String)
    (existing_ids all_ids table : Finset String) (results : List SampleRaw) :
    applyRun cm mm dc existing_ids all_ids results table
      = (table \ runDeleteIds existing_ids all_ids results)
          ∪ touchedIds results := by
  rw [← sampleInsertRecords_salesIds cm mm dc results]
  by_cases hids : runDeleteIds existing_ids all_ids results = ∅
  · by_cases hrecs : sampleInsertRecords cm mm dc results = []
    · simp [applyRun, runTransaction, hids, hrecs, applyStmt]
    · simp [applyRun, runTransaction, hids, hrecs, applyStmt]
  · by_cases hrecs : sampleInsertRecords cm mm dc results = []
    · simp [applyRun, runTransaction, hids, hrecs, applyStmt]
    · simp [applyRun, runTransaction, hids, hrecs, applyStmt]

/-- C1: the net effect of the run on the warehouse id set — the ids deleted
by the transaction and not re-inserted — equals
`warehouseIds − sourceIds − deltaBatchIds`; in particular an id present in
the delta batch is never net-deleted, even when absent from the source id
set. -/
theorem reconcile_net_deletions (cm mm : String → Option Int) (dc : String)
    (existing_ids all_ids table : Finset String) (results : List SampleRaw)
    (hsub : existing_ids ⊆ table) :
    table \ applyRun cm mm dc existing_ids all_ids results table
      = (existing_ids \ all_ids) \ touchedIds results
    ∧ ∀ r ∈ results,
        r.salesid ∉ table \ applyRun cm mm dc existing_ids all_ids results table := by
  have hmain :
      table \ applyRun cm mm dc existing_ids all_ids results table
        = (existing_ids \ all_ids) \ touchedIds results := by
    rw [applyRun_eq, runDeleteIds_eq]
    ext x
    have hx : x ∈ existing_ids → x ∈ table := fun h => hsub h
    simp only [Finset.mem_sdiff, Finset.mem_union, not_or, not_and, not_not]
    tauto
  refine ⟨hmain, fun r hr hmem => ?_⟩
  rw [hmain, Finset.mem_sdiff] at hmem
  apply hmem.2
  simp only [touchedIds, List.mem_toFinset, List.mem_map]
  exact ⟨r, hr, rfl⟩

/-- Concrete delta-batch row used by the witnesses: `SalesId = "B"`. -/
def sampleRawB : SampleRaw :=
  { lfart := "ZLF", vbeln := "80001", matnr := "M1", wadat := none,
    wadat_ist := none, wbstk := none, kunnr := "C9", vkorg := "1000",
    spart := "00", vtweg := "10", salesid := "B", lfimg := 1, lsmeng := 1,
    aedat := some 20251011, erdat := some 20250101 }

theorem reconcile_net_deletions_witness :
    ({"A", "B", "C"} : Finset String)
        \ applyRun (fun _ => none) (fun _ => none) "10" {"A", "B", "C"}
            {"A", "C"} [sampleRawB] {"A", "B", "C"}
      = (({"A", "B", "C"} : Finset String) \ {"A", "C"}) \ touchedIds [sampleRawB]
    ∧ ∀ r ∈ [sampleRawB],
        r.salesid ∉ ({"A", "B", "C"} : Finset String)
          \ applyRun (fun _ => none) (fun _ => none) "10" {"A", "B", "C"}
              {"A", "C"} [sampleRawB] {"A", "B", "C"} :=
  reconcile_net_deletions (fun _ => none) (fun _ => none) "10"
    {"A", "B", "C"} {"A", "C"} {"A", "B", "C"} [sampleRawB]
    (Finset.Subset.refl _)

/-- C7: when the delta batch is non-empty, the id set passed to the delete
statement equals `(warehouseIds − sourceIds) ∪ deltaBatchIds` — every
delta id is merged into it — and the transaction runs that delete strictly
before the insert of the fresh delta rows. -/
theorem delta_ids_merged_into_delete (cm mm : String → Option Int)
    (dc : String) (existing_ids all_ids : Finset String)
    (results : List SampleRaw) (h : results ≠ []) :
    runDeleteIds existing_ids all_ids results
      = (existing_ids \ all_ids) ∪ touchedIds results
    ∧ touchedIds results ⊆ runDeleteIds existing_ids all_ids results
    ∧ runTransaction cm mm dc existing_ids all_ids results
        = [DbStmt.del (runDeleteIds existing_ids all_ids results),
           DbStmt.ins (results.map (sampleInsertRow cm mm dc))] := by
  obtain ⟨r, rs, rfl⟩ := List.exists_cons_of_ne_nil h
  have hDeq := runDeleteIds_eq existing_ids all_ids (r :: rs)
  have hTsub : touchedIds (r :: rs) ⊆ runDeleteIds existing_ids all_ids (r :: rs) := by
    rw [hDeq]; exact Finset.subset_union_right
  refine ⟨hDeq, hTsub, ?_⟩
  have hTne : r.salesid ∈ touchedIds (r :: rs) := by
    simp [touchedIds]
  have hDne : ¬ runDeleteIds existing_ids all_ids (r :: rs) = ∅ := by
    intro hc
    have := hTsub hTne
    rw [hc] at this
    exact absurd this (Finset.not_mem_empty _)
  have hrecs : sampleInsertRecords cm mm dc (r :: rs)
      = (r :: rs).map (sampleInsertRow cm mm dc) := by
    simp [sampleInsertRecords]
  simp [runTransaction, hDne, hrecs]

theorem delta_ids_merged_into_delete_witness :
    runDeleteIds {"A", "B", "C"} {"A", "C"} [sampleRawB]
      = (({"A", "B", "C"} : Finset String) \ {"A", "C"}) ∪ touchedIds [sampleRawB]
    ∧ touchedIds [sampleRawB] ⊆ runDeleteIds {"A", "B", "C"} {"A", "C"} [sampleRawB]
    ∧ runTransaction (fun _ => none) (fun _ => none) "10" {"A", "B", "C"}
        {"A", "C"} [sampleRawB]
        = [DbStmt.del (runDeleteIds {"A", "B", "C"} {"A", "C"} [sampleRawB]),
           DbStmt.ins ([sampleRawB].map
             (sampleInsertRow (fun _ => none) (fun _ => none) "10"))] :=
  delta_ids_merged_into_delete (fun _ => none) (fun _ => none) "10"
    {"A", "B", "C"} {"A", "C"} [sampleRawB] (List.cons_ne_nil _ _)

/-! ## Allocation engine: `availability_calculation_fact.py`

The demand dataframe `orders` (from `V_DW_NEXT_WEEK_SALES`, pre-sorted by
`GoodsIssueDate, QtyConfirmed`) is a `List Order` in input order;
`stock_map` is the `MaterialId → UnrestrictedStock` dictionary; the
prepared supply dataframe `ofs` is a `List SupplyRow`. -/

/-- One demand line of the `orders` dataframe, types post-coercion
(`MaterialId` numeric, `QtyConfirmed` numeric with `fillna(0)`). -/
structure Order where
  salesId : String
  materialId : Int
  custId : Int
  goodsIssueDate : Int
  qtyOrdered : ℚ
  qtyConfirmed : ℚ
deriving DecidableEq

/-- One raw supply row from `SAPSR3.ZCON_V_OF_LIBERADAS`, after the
numeric coercions (`gamng`/`wemng` are `to_numeric(...).fillna(0)`), with
the date columns modelled post-parse (`errors="coerce"` gives `none`). -/
structure RawOf where
  aufnr_zsem : Option String
  aufnr_zpa : Option String
  matnr_zpa : Option String
  gltrs : Option Int
  gltri : Option Int
  gamng : ℚ
  wemng : ℚ
  charg : Option String
  lgort : Option String
deriving DecidableEq

/-- `remain_qty = gamng - wemng` (line 135). -/
def rawRemainQty (r : RawOf) : ℚ := r.gamng - r.wemng

/-- One prepared supply line (a record dict of `ofs_state`).  `idx` is a
ghost field modelling the Python object identity of the record dict: it is
assigned once at load time, is never changed, and no computed quantity
depends on it.  `qty` is the `qty` column (copied from `remain_qty` at
load time, line 163) and `remain_qty` is the mutable working quantity. -/
structure SupplyRow where
  idx : Nat
  aufnr_zpa : Option String
  aufnr_zsem : Option String
  material_id : Int
  qty : ℚ
  release_date : Option Int
  finish_date : Option Int
  batch : Option String
  invent_location : Option String
  remain_qty : ℚ
deriving DecidableEq

/-- Builds one prepared supply row from a raw row and its resolved
material id (lines 117–180). -/
def mkSupplyRow (i : Nat) (materialId : Int) (r : RawOf) : SupplyRow :=
  { idx := i
    aufnr_zpa := r.aufnr_zpa
    aufnr_zsem := r.aufnr_zsem
    material_id := materialId
    qty := rawRemainQty r
    release_date := r.gltrs
    finish_date := r.gltri
    batch := r.charg
    invent_location := r.lgort
    remain_qty := rawRemainQty r }

/-- The supply load: `material_id = matnr_zpa.fillna("").map(material_map)`
followed by `ofs.dropna(subset=["material_id"])` — rows whose material
code has no surrogate key are dropped, the rest are kept in order.  The
position counter supplies the ghost identity. -/
def loadSupplyGo (materialMap : String → Option Int) :
    Nat → List RawOf → List SupplyRow
  | _, [] => []
  | i, r :: rest =>
    match materialMap ((r.matnr_zpa).getD "") with
    | some mid => mkSupplyRow i mid r :: loadSupplyGo materialMap (i + 1) rest
    | none => loadSupplyGo materialMap (i + 1) rest

def loadSupply (materialMap : String → Option Int) (raws : List RawOf) :
    List SupplyRow :=
  loadSupplyGo materialMap 0 raws

/-- `orders["AvailableStock"] = orders["MaterialId"].map(stock_map).fillna(0)`
(line 77). -/
def availableStock (stock_map : Int → Option ℚ) (m : Int) : ℚ :=
  (stock_map m).getD 0

/-- `orders.groupby("MaterialId")["QtyConfirmed"].cumsum()` (lines 72–74):
pairs every order, in input order, with the running per-material cumulative
sum of `QtyConfirmed`; `acc` carries the per-material totals so far. -/
def cumulativeDemand : List Order → (Int → ℚ) → List (Order × ℚ)
  | [], _ => []
  | o :: rest, acc =>
    let c := acc o.materialId + o.qtyConfirmed
    (o, c) ::
      cumulativeDemand rest (fun m => if m = o.materialId then c else acc m)

/-- Phase A result (lines 82–89): the lines whose cumulative demand is not
covered by the available stock, in input order (`orders_to_process`). -/
def ordersToProcess (stock_map : Int → Option ℚ) (orders : List Order) :
    List Order :=
  ((cumulativeDemand orders (fun _ => 0)).filter
    (fun oc => !decide (oc.2 ≤ availableStock stock_map oc.1.materialId))).map
    (fun oc => oc.1)

/-- One output row of `insert_results` (lines 244–294).  `supplyIdx` is
the ghost identity of the supply record the row was created from (`none`
for a shortage row); it mirrors no database column. -/
structure AllocationRecord where
  salesId : String
  materialId : Int
  custId : Int
  goodsIssueDate : Int
  qtyConfirmed : ℚ
  ofZpa : Option String
  ofZsem : Option String
  qtyOfZpa : Option ℚ
  releaseDate : Option Int
  finishDate : Option Int
  batchNumber : Option String
  inventLocation : Option String
  supplyIdx : Option Nat
deriving DecidableEq

/-- The supply-backed result record appended at lines 244–263. -/
def mkAllocationRecord (o : Order) (s : SupplyRow) (take : ℚ) :
    AllocationRecord :=
  { salesId := o.salesId
    materialId := o.materialId
    custId := o.custId
    goodsIssueDate := o.goodsIssueDate
    qtyConfirmed := take
    ofZpa := s.aufnr_zpa
    ofZsem := s.aufnr_zsem
    qtyOfZpa := some s.qty
    releaseDate := s.release_date
    finishDate := s.finish_date
    batchNumber := s.batch
    inventLocation := s.invent_location
    supplyIdx := some s.idx }

/-- The shortage record appended at lines 278–294: all supply-derived
fields are null. -/
def shortageRecord (o : Order) (need : ℚ) : AllocationRecord :=
  { salesId := o.salesId
    materialId := o.materialId
    custId := o.custId
    goodsIssueDate := o.goodsIssueDate
    qtyConfirmed := need
    ofZpa := none
    ofZsem := none
    qtyOfZpa := none
    releaseDate := none
    finishDate := none
    batchNumber := none
    inventLocation := none
    supplyIdx := none }

/-- The inner `while` loop (lines 232–275) for one order: walks the
material's supply partition; skips rows with `remain_qty ≤ 0`; takes
`min(need, remain_qty)` from a positive row, emitting a record; advances
past a row exactly when its `remain_qty` hits `0`; stops when the need is
exhausted or the partition ends.  Returns the emitted records, the
partition after the prefix cleanup (`available_ofs[ofs_idx:]`, with the
in-place `remain_qty` mutation of the current row), and the residual
need. -/
def consume (o : Order) : ℚ → List SupplyRow →
    List AllocationRecord × List SupplyRow × ℚ
  | need, [] => ([], [], need)
  | need, s :: rest =>
    if 0 < need then
      if s.remain_qty ≤ 0 then consume o need rest
      else
        let take := min need s.remain_qty
        if s.remain_qty - take = 0 then
          let res := consume o (need - take) rest
          (mkAllocationRecord o s take :: res.1, res.2.1, res.2.2)
        else
          ([mkAllocationRecord o s take],
           { s with remain_qty := s.remain_qty - take } :: rest,
           need - take)
    else ([], s :: rest, need)

/-- One iteration of the outer `for` loop (lines 221–294): consume supply
for the order, append the shortage record when `qty_needed > 0` remains,
and store the updated partition back into `ofs_state`. -/
def allocateStep (st : Int → List SupplyRow) (o : Order) :
    List AllocationRecord × (Int → List SupplyRow) :=
  let res := consume o o.qtyConfirmed (st o.materialId)
  (res.1 ++ (if 0 < res.2.2 then [shortageRecord o res.2.2] else []),
   fun m => if m = o.materialId then res.2.1 else st m)

/-- The outer loop over `orders_to_process`, threading `ofs_state` and
accumulating `insert_results`. -/
def allocateS : List Order → (Int → List SupplyRow) →
    List AllocationRecord × (Int → List SupplyRow)
  | [], st => ([], st)
  | o :: rest, st =>
    let step := allocateStep st o
    let res := allocateS rest step.2
    (step.1 ++ res.1, res.2)

/-- The per-order record blocks of the outer loop, in loop order. -/
def allocBlocks : List Order → (Int → List SupplyRow) →
    List (List AllocationRecord)
  | [], _ => []
  | o :: rest, st =>
    (allocateStep st o).1 :: allocBlocks rest (allocateStep st o).2

/-- `ofs_state = {mat_id: group.to_dict("records")}` (lines 209–216):
grouping preserves the row order of the prepared `ofs` frame; a material
absent from the dict reads as the empty partition
(`ofs_state.get(mat_id, [])`). -/
def initState (ofs : List SupplyRow) (m : Int) : List SupplyRow :=
  ofs.filter (fun s => decide (s.material_id = m))

/-- The whole allocation computation of `AvailabilityCalculationFactETL.run`
(sections 3 and 5): Phase A stock pre-filter, then the FIFO consumption
loop over the prepared supply rows. -/
def allocationRun (stock_map : Int → Option ℚ) (orders : List Order)
    (ofs : List SupplyRow) : List AllocationRecord :=
  (allocateS (ordersToProcess stock_map orders) (initState ofs)).1

/-- Total quantity allocated against the supply record with ghost
identity `i`. -/
def allocatedTo (recs : List AllocationRecord) (i : Nat) : ℚ :=
  ((recs.filter (fun r => decide (r.supplyIdx = some i))).map
    (fun r => r.qtyConfirmed)).sum

/-- Sum of clipped-to-zero remaining quantities of the rows with ghost
identity `i` in a partition (the over-consumption potential of `i`). -/
def posRemainAt (l : List SupplyRow) (i : Nat) : ℚ :=
  ((l.filter (fun s => decide (s.idx = i))).map
    (fun s => max s.remain_qty 0)).sum

/-! ### Equation lemmas for `consume` -/

theorem consume_nonpos (o : Order) (need : ℚ) (l : List SupplyRow)
    (h : ¬ 0 < need) : consume o need l = ([], l, need) := by
  cases l with
  | nil => simp [consume]
  | cons s rest => simp [consume, h]

theorem consume_cons_skip (o : Order) (need : ℚ) (s : SupplyRow)
    (rest : List SupplyRow) (h1 : 0 < need) (h2 : s.remain_qty ≤ 0) :
    consume o need (s :: rest) = consume o need rest := by
  simp [consume, h1, h2]

theorem consume_cons_exhaust (o : Order) (need : ℚ) (s : SupplyRow)
    (rest : List SupplyRow) (h1 : 0 < need) (h2 : ¬ s.remain_qty ≤ 0)
    (h3 : s.remain_qty - min need s.remain_qty = 0) :
    consume o need (s :: rest)
      = (mkAllocationRecord o s (min need s.remain_qty)
            :: (consume o (need - min need s.remain_qty) rest).1,
         (consume o (need - min need s.remain_qty) rest).2.1,
         (consume o (need - min need s.remain_qty) rest).2.2) := by
  simp [consume, h1, h2, h3]

theorem consume_cons_keep (o : Order) (need : ℚ) (s : SupplyRow)
    (rest : List SupplyRow) (h1 : 0 < need) (h2 : ¬ s.remain_qty ≤ 0)
    (h3 : ¬ s.remain_qty - min need s.remain_qty = 0) :
    consume o need (s :: rest)
      = ([mkAllocationRecord o s (min need s.remain_qty)],
         { s with remain_qty := s.remain_qty - min need s.remain_qty } :: rest,
         need - min need s.remain_qty) := by
  simp [consume, h1, h2, h3]

/-! ### Quantity bookkeeping lemmas -/

theorem allocatedTo_nil (i : Nat) : allocatedTo [] i = 0 := rfl

theorem allocatedTo_cons (r : AllocationRecord) (recs : List AllocationRecord)
    (i : Nat) :
    allocatedTo (r :: recs) i
      = (if r.supplyIdx = some i then r.qtyConfirmed else 0)
          + allocatedTo recs i := by
  by_cases h : r.supplyIdx = some i
  · simp [allocatedTo, List.filter_cons, h]
  · simp [allocatedTo, List.filter_cons, h]

theorem allocatedTo_append (a b : List AllocationRecord) (i : Nat) :
    allocatedTo (a ++ b) i = allocatedTo a i + allocatedTo b i := by
  simp [allocatedTo, List.filter_append]

theorem allocatedTo_eq_zero (recs : List AllocationRecord) (i : Nat)
    (h : ∀ r ∈ recs, ¬ r.supplyIdx = some i) : allocatedTo recs i = 0 := by
  induction recs with
  | nil => rfl
  | cons r rs ih =>
    rw [allocatedTo_cons, if_neg (h r (List.mem_cons_self r rs)),
      ih (fun q hq => h q (List.mem_cons_of_mem r hq))]
    ring

theorem posRemainAt_nil (i : Nat) : posRemainAt [] i = 0 := rfl

theorem posRemainAt_cons (s : SupplyRow) (l : List SupplyRow) (i : Nat) :
    posRemainAt (s :: l) i
      = (if s.idx = i then max s.remain_qty 0 else 0) + posRemainAt l i := by
  by_cases h : s.idx = i
  · simp [posRemainAt, List.filter_cons, h]
  · simp [posRemainAt, List.filter_cons, h]

theorem posRemainAt_nonneg (l : List SupplyRow) (i : Nat) :
    0 ≤ posRemainAt l i := by
  induction l with
  | nil => simp [posRemainAt_nil]
  | cons s rest ih =>
    rw [posRemainAt_cons]
    have h0 : (0:ℚ) ≤ max s.remain_qty 0 := le_max_right _ _
    by_cases h : s.idx = i
    · rw [if_pos h]; linarith
    · rw [if_neg h]; linarith

theorem posRemainAt_eq_zero (l : List SupplyRow) (i : Nat)
    (h : ∀ s ∈ l, ¬ s.idx = i) : posRemainAt l i = 0 := by
  induction l with
  | nil => rfl
  | cons s rest ih =>
    rw [posRemainAt_cons, if_neg (h s (List.mem_cons_self s rest)),
      ih (fun q hq => h q (List.mem_cons_of_mem s hq))]
    ring

/-! ### Core invariants of the consumption loop -/

theorem consume_sum (o : Order) :
    ∀ (l : List SupplyRow) (need : ℚ),
      (((consume o need l).1).map (fun r => r.qtyConfirmed)).sum
        = need - (consume o need l).2.2
  | [], need => by simp [consume]
  | s :: rest, need => by
    by_cases h1 : 0 < need
    · by_cases h2 : s.remain_qty ≤ 0
      · rw [consume_cons_skip o need s rest h1 h2]
        exact consume_sum o rest need
      · by_cases h3 : s.remain_qty - min need s.remain_qty = 0
        · rw [consume_cons_exhaust o need s rest h1 h2 h3]
          have ih := consume_sum o rest (need - min need s.remain_qty)
          simp only [List.map_cons, List.sum_cons, mkAllocationRecord]
          rw [ih]
          ring
        · rw [consume_cons_keep o need s rest h1 h2 h3]
          simp [mkAllocationRecord]
    · rw [consume_nonpos o need _ h1]
      simp

theorem consume_left_nonneg (o : Order) :
    ∀ (l : List SupplyRow) (need : ℚ), 0 ≤ need →
      0 ≤ (consume o need l).2.2
  | [], need, h => by simpa [consume] using h
  | s :: rest, need, h => by
    by_cases h1 : 0 < need
    · by_cases h2 : s.remain_qty ≤ 0
      · rw [consume_cons_skip o need s rest h1 h2]
        exact consume_left_nonneg o rest need h
      · have htake : min need s.remain_qty ≤ need := min_le_left _ _
        by_cases h3 : s.remain_qty - min need s.remain_qty = 0
        · rw [consume_cons_exhaust o need s rest h1 h2 h3]
          exact consume_left_nonneg o rest _ (by linarith)
        · rw [consume_cons_keep o need s rest h1 h2 h3]
          simp
    · rw [consume_nonpos o need _ h1]
      simpa using h

theorem consume_recs (o : Order) :
    ∀ (l : List SupplyRow) (need : ℚ), ∀ r ∈ (consume o need l).1,
      ∃ s₀ ∈ l, r = mkAllocationRecord o s₀ r.qtyConfirmed
        ∧ 0 < r.qtyConfirmed ∧ r.qtyConfirmed ≤ s₀.remain_qty
        ∧ 0 < s₀.remain_qty
  | [], need => by simp [consume]
  | s :: rest, need => by
    by_cases h1 : 0 < need
    · by_cases h2 : s.remain_qty ≤ 0
      · rw [consume_cons_skip o need s rest h1 h2]
        intro r hr
        obtain ⟨s₀, hs₀, hprop⟩ := consume_recs o rest need r hr
        exact ⟨s₀, List.mem_cons_of_mem s hs₀, hprop⟩
      · have hpos : 0 < s.remain_qty := lt_of_not_le h2
        have htpos : 0 < min need s.remain_qty := lt_min h1 hpos
        have htle : min need s.remain_qty ≤ s.remain_qty := min_le_right _ _
        by_cases h3 : s.remain_qty - min need s.remain_qty = 0
        · rw [consume_cons_exhaust o need s rest h1 h2 h3]
          intro r hr
          rcases List.mem_cons.mp hr with hhead | htail
          · subst hhead
            exact ⟨s, List.mem_cons_self s rest, rfl, htpos, htle, hpos⟩
          · obtain ⟨s₀, hs₀, hprop⟩ := consume_recs o rest _ r htail
            exact ⟨s₀, List.mem_cons_of_mem s hs₀, hprop⟩
        · rw [consume_cons_keep o need s rest h1 h2 h3]
          intro r hr
          rcases List.mem_cons.mp hr with hhead | htail
          · subst hhead
            exact ⟨s, List.mem_cons_self s rest, rfl, htpos, htle, hpos⟩
          · exact absurd htail (List.not_mem_nil r)
    · rw [consume_nonpos o need _ h1]
      simp

theorem consume_state (o : Order) :
    ∀ (l : List SupplyRow) (need : ℚ), ∀ s' ∈ (consume o need l).2.1,
      ∃ s₀ ∈ l, s'.idx = s₀.idx ∧ s'.qty = s₀.qty
        ∧ s'.material_id = s₀.material_id
        ∧ s'.aufnr_zpa = s₀.aufnr_zpa
        ∧ s'.remain_qty ≤ s₀.remain_qty
        ∧ (s' = s₀ ∨ 0 ≤ s'.remain_qty)
  | [], need => by simp [consume]
  | s :: rest, need => by
    by_cases h1 : 0 < need
    · by_cases h2 : s.remain_qty ≤ 0
      · rw [consume_cons_skip o need s rest h1 h2]
        intro s' hs'
        obtain ⟨s₀, hs₀, hprop⟩ := consume_state o rest need s' hs'
        exact ⟨s₀, List.mem_cons_of_mem s hs₀, hprop⟩
      · by_cases h3 : s.remain_qty - min need s.remain_qty = 0
        · rw [consume_cons_exhaust o need s rest h1 h2 h3]
          intro s' hs'
          obtain ⟨s₀, hs₀, hprop⟩ := consume_state o rest _ s' hs'
          exact ⟨s₀, List.mem_cons_of_mem s hs₀, hprop⟩
        · rw [consume_cons_keep o need s rest h1 h2 h3]
          intro s' hs'
          rcases List.mem_cons.mp hs' with hhead | htail
          · subst hhead
            refine ⟨s, List.mem_cons_self s rest, rfl, rfl, rfl, rfl, ?_, ?_⟩
            · have htpos : 0 < min need s.remain_qty :=
                lt_min h1 (lt_of_not_le h2)
              show s.remain_qty - min need s.remain_qty ≤ s.remain_qty
              linarith
            · right
              have htle : min need s.remain_qty ≤ s.remain_qty :=
                min_le_right _ _
              show (0:ℚ) ≤ s.remain_qty - min need s.remain_qty
              linarith
          · exact ⟨s', List.mem_cons_of_mem s htail, rfl, rfl, rfl, rfl,
              le_refl _, Or.inl rfl⟩
    · rw [consume_nonpos o need _ h1]
      intro s' hs'
      exact ⟨s', hs', rfl, rfl, rfl, rfl, le_refl _, Or.inl rfl⟩

theorem consume_quant (o : Order) (i : Nat) :
    ∀ (l : List SupplyRow) (need : ℚ),
      allocatedTo (consume o need l).1 i
          + posRemainAt (consume o need l).2.1 i
        ≤ posRemainAt l i
  | [], need => by simp [consume, allocatedTo_nil, posRemainAt_nil]
  | s :: rest, need => by
    by_cases h1 : 0 < need
    · by_cases h2 : s.remain_qty ≤ 0
      · rw [consume_cons_skip o need s rest h1 h2, posRemainAt_cons]
        have hmax : max s.remain_qty 0 = 0 := max_eq_right h2
        have ih := consume_quant o i rest need
        by_cases h : s.idx = i
        · rw [if_pos h, hmax]; linarith
        · rw [if_neg h]; linarith
      · have hpos : 0 < s.remain_qty := lt_of_not_le h2
        have htle : min need s.remain_qty ≤ s.remain_qty := min_le_right _ _
        by_cases h3 : s.remain_qty - min need s.remain_qty = 0
        · rw [consume_cons_exhaust o need s rest h1 h2 h3, posRemainAt_cons]
          have ih := consume_quant o i rest (need - min need s.remain_qty)
          simp only [allocatedTo_cons, mkAllocationRecord]
          have hmax : max s.remain_qty 0 = s.remain_qty := max_eq_left hpos.le
          have htake : min need s.remain_qty = s.remain_qty := by linarith
          by_cases h : s.idx = i
          · have hcond : some s.idx = some i := by rw [h]
            rw [if_pos hcond, if_pos h, hmax]
            rw [htake] at ih ⊢
            linarith
          · have h' : ¬ (some s.idx = some i) := by
              intro hc; exact h (Option.some.injEq _ _ ▸ hc)
            rw [if_neg h', if_neg h]
            linarith
        · rw [consume_cons_keep o need s rest h1 h2 h3]
          have hrem : 0 ≤ s.remain_qty - min need s.remain_qty := by linarith
          rw [posRemainAt_cons, posRemainAt_cons, allocatedTo_cons,
            allocatedTo_nil]
          simp only [mkAllocationRecord]
          have hmax : max s.remain_qty 0 = s.remain_qty := max_eq_left hpos.le
          have hmax2 : max (s.remain_qty - min need s.remain_qty) 0
              = s.remain_qty - min need s.remain_qty := max_eq_left hrem
          by_cases h : s.idx = i
          · simp only [h, if_pos rfl]
            show min need s.remain_qty + 0
                + (max (s.remain_qty - min need s.remain_qty) 0
                    + posRemainAt rest i)
              ≤ max s.remain_qty 0 + posRemainAt rest i
            rw [hmax, hmax2]
            linarith
          · have h' : ¬ (some s.idx = some i) := by
              intro hc; exact h (Option.some.injEq _ _ ▸ hc)
            rw [if_neg h', if_neg h, if_neg h]
            simp
    · rw [consume_nonpos o need _ h1]
      simp [allocatedTo_nil]

/-- `i` lives (at most) in the partition of material `m`: no row of any
other partition carries the ghost identity `i`. -/
def OnlyAt (st : Int → List SupplyRow) (i : Nat) (m : Int) : Prop :=
  ∀ m', m' ≠ m → ∀ s ∈ st m', ¬ s.idx = i

theorem allocatedTo_shortage_ite (o : Order) (q : ℚ) (c : Prop)
    [Decidable c] (i : Nat) :
    allocatedTo (if c then [shortageRecord o q] else []) i = 0 := by
  split
  · rw [allocatedTo_cons, allocatedTo_nil, if_neg (by simp [shortageRecord])]
    ring
  · rfl

theorem allocateStep_quant (st : Int → List SupplyRow) (o : Order) (i : Nat)
    (m : Int) (h : OnlyAt st i m) :
    allocatedTo (allocateStep st o).1 i
        + posRemainAt ((allocateStep st o).2 m) i
      ≤ posRemainAt (st m) i
    ∧ OnlyAt (allocateStep st o).2 i m := by
  by_cases hm : o.materialId = m
  · constructor
    · show allocatedTo ((consume o o.qtyConfirmed (st o.materialId)).1 ++ _) i
          + posRemainAt (if m = o.materialId
              then (consume o o.qtyConfirmed (st o.materialId)).2.1
              else st m) i ≤ posRemainAt (st m) i
      rw [allocatedTo_append, allocatedTo_shortage_ite, if_pos hm.symm, hm]
      have := consume_quant o i (st o.materialId) o.qtyConfirmed
      rw [hm] at this
      linarith [this]
    · intro m' hm' s hs hidx
      by_cases hmm : m' = o.materialId
      · exact absurd (hmm.trans hm) hm'
      · have hs' : s ∈ st m' := by
          have : (allocateStep st o).2 m' = st m' := if_neg hmm
          rw [this] at hs
          exact hs
        exact h m' hm' s hs' hidx
  · have hstep2 : (allocateStep st o).2 m = st m := if_neg (fun hc => hm hc.symm)
    constructor
    · rw [hstep2]
      have hz : allocatedTo (allocateStep st o).1 i = 0 := by
        show allocatedTo
            ((consume o o.qtyConfirmed (st o.materialId)).1 ++ _) i = 0
        rw [allocatedTo_append, allocatedTo_shortage_ite]
        have hzz : allocatedTo (consume o o.qtyConfirmed (st o.materialId)).1 i
            = 0 := by
          apply allocatedTo_eq_zero
          intro r hr hidx
          obtain ⟨s₀, hs₀, hrec, _⟩ :=
            consume_recs o (st o.materialId) o.qtyConfirmed r hr
          have hs₀i : s₀.idx = i := by
            have : r.supplyIdx = some s₀.idx := by
              rw [hrec]; rfl
            rw [this] at hidx
            exact Option.some.injEq _ _ ▸ hidx
          exact h o.materialId hm s₀ hs₀ hs₀i
        rw [hzz]
        ring
      rw [hz]
      simp
    · intro m' hm' s hs hidx
      by_cases hmm : m' = o.materialId
      · have hsm : s ∈ (consume o o.qtyConfirmed (st o.materialId)).2.1 := by
          have : (allocateStep st o).2 m' =
              (consume o o.qtyConfirmed (st o.materialId)).2.1 := if_pos hmm
          rw [this] at hs
          exact hs
        obtain ⟨s₀, hs₀, hidx0, _⟩ :=
          consume_state o (st o.materialId) o.qtyConfirmed s hsm
        exact h o.materialId hm s₀ hs₀ (hidx0 ▸ hidx)
      · have : (allocateStep st o).2 m' = st m' := if_neg hmm
        rw [this] at hs
        exact h m' hm' s hs hidx

theorem allocateS_quant (i : Nat) (m : Int) :
    ∀ (os : List Order) (st : Int → List SupplyRow), OnlyAt st i m →
      allocatedTo (allocateS os st).1 i
          + posRemainAt ((allocateS os st).2 m) i
        ≤ posRemainAt (st m) i
      ∧ OnlyAt (allocateS os st).2 i m
  | [], st, h => by
    constructor
    · simp [allocateS, allocatedTo_nil]
    · exact h
  | o :: rest, st, h => by
    obtain ⟨hstep, honly⟩ := allocateStep_quant st o i m h
    obtain ⟨hrest, honly'⟩ := allocateS_quant i m rest (allocateStep st o).2 honly
    constructor
    · show allocatedTo ((allocateStep st o).1
            ++ (allocateS rest (allocateStep st o).2).1) i
          + posRemainAt ((allocateS rest (allocateStep st o).2).2 m) i
        ≤ posRemainAt (st m) i
      rw [allocatedTo_append]
      have hp := posRemainAt_nonneg (((allocateS rest (allocateStep st o).2).2) m) i
      linarith
    · exact honly'

theorem initState_mem (ofs : List SupplyRow) (m : Int) (s : SupplyRow) :
    s ∈ initState ofs m ↔ s ∈ ofs ∧ s.material_id = m := by
  simp [initState]

theorem initState_OnlyAt (ofs : List SupplyRow)
    (hnd : (ofs.map (fun s => s.idx)).Nodup) (s : SupplyRow) (hs : s ∈ ofs) :
    OnlyAt (initState ofs) s.idx s.material_id := by
  intro m' hm' t ht hidx
  have htofs := (initState_mem ofs m' t).mp ht
  have hts : t = s :=
    List.inj_on_of_nodup_map hnd htofs.1 hs (by simpa using hidx)
  exact hm' (by rw [← htofs.2, hts])

theorem posRemainAt_initState :
    ∀ (ofs : List SupplyRow), (ofs.map (fun s => s.idx)).Nodup →
      ∀ s ∈ ofs,
        posRemainAt (initState ofs s.material_id) s.idx = max s.remain_qty 0
  | [], _, s, hs => absurd hs (List.not_mem_nil s)
  | t :: rest, hnd, s, hs => by
    rw [List.map_cons, List.nodup_cons] at hnd
    obtain ⟨hni, hnd'⟩ := hnd
    rcases List.mem_cons.mp hs with rfl | hmem
    · have hfil : initState (s :: rest) s.material_id
          = s :: initState rest s.material_id := by
        simp [initState, List.filter_cons]
      rw [hfil, posRemainAt_cons, if_pos rfl]
      have hz : posRemainAt (initState rest s.material_id) s.idx = 0 := by
        apply posRemainAt_eq_zero
        intro u hu hci
        apply hni
        have hu' : u ∈ rest := ((initState_mem rest _ u).mp hu).1
        rw [← hci]
        exact List.mem_map_of_mem (fun q => q.idx) hu'
      rw [hz]; ring
    · have hti : ¬ t.idx = s.idx := by
        intro hc
        apply hni
        rw [hc]
        exact List.mem_map_of_mem (fun q => q.idx) hmem
      by_cases hm : t.material_id = s.material_id
      · have hfil : initState (t :: rest) s.material_id
            = t :: initState rest s.material_id := by
          simp [initState, List.filter_cons, hm]
        rw [hfil, posRemainAt_cons, if_neg hti,
          posRemainAt_initState rest hnd' s hmem]
        ring
      · have hfil : initState (t :: rest) s.material_id
            = initState rest s.material_id := by
          simp [initState, List.filter_cons, hm]
        rw [hfil]
        exact posRemainAt_initState rest hnd' s hmem

/-- C3: no over-consumption.  (1) For every supply line of the prepared
frame (ghost-identified by `idx`, with distinct identities and a
non-negative initial `remain_qty`), the total `QtyConfirmed` of the output
records drawn from it never exceeds its original `remain_qty`.
(2) During allocation a partition row's `remain_qty` only ever decreases,
and any row the loop touched is left non-negative.  (3) Every emitted
record was drawn from a row whose `remain_qty` was strictly positive at
the time — a row at `0` is never allocated from — and the drawn quantity
is positive and within that row's `remain_qty`. -/
theorem no_overconsumption (stock_map : Int → Option ℚ) (orders : List Order)
    (ofs : List SupplyRow) (hnd : (ofs.map (fun s => s.idx)).Nodup) :
    (∀ s ∈ ofs, 0 ≤ s.remain_qty →
        allocatedTo (allocationRun stock_map orders ofs) s.idx
          ≤ s.remain_qty)
    ∧ (∀ (o : Order) (need : ℚ) (l : List SupplyRow),
        ∀ s' ∈ (consume o need l).2.1, ∃ s₀ ∈ l,
          s'.idx = s₀.idx ∧ s'.qty = s₀.qty
            ∧ s'.remain_qty ≤ s₀.remain_qty
            ∧ (s' = s₀ ∨ 0 ≤ s'.remain_qty))
    ∧ (∀ (o : Order) (need : ℚ) (l : List SupplyRow),
        ∀ r ∈ (consume o need l).1, ∃ s₀ ∈ l,
          r.supplyIdx = some s₀.idx ∧ 0 < s₀.remain_qty
            ∧ 0 < r.qtyConfirmed ∧ r.qtyConfirmed ≤ s₀.remain_qty) := by
  refine ⟨?_, ?_, ?_⟩
  · intro s hs hpos
    have honly := initState_OnlyAt ofs hnd s hs
    obtain ⟨hq, -⟩ := allocateS_quant s.idx s.material_id
      (ordersToProcess stock_map orders) (initState ofs) honly
    have hpinit := posRemainAt_initState ofs hnd s hs
    have hpf := posRemainAt_nonneg
      ((allocateS (ordersToProcess stock_map orders) (initState ofs)).2
        s.material_id) s.idx
    have hmax : max s.remain_qty 0 = s.remain_qty := max_eq_left hpos
    rw [hpinit, hmax] at hq
    show allocatedTo
        (allocateS (ordersToProcess stock_map orders) (initState ofs)).1 s.idx
      ≤ s.remain_qty
    linarith
  · intro o need l s' hs'
    obtain ⟨s₀, hmem, h1, h2, -, -, h5, h6⟩ := consume_state o l need s' hs'
    exact ⟨s₀, hmem, h1, h2, h5, h6⟩
  · intro o need l r hr
    obtain ⟨s₀, hmem, hrec, hpos, hle, hspos⟩ := consume_recs o l need r hr
    refine ⟨s₀, hmem, ?_, hspos, hpos, hle⟩
    rw [hrec]; rfl

/-- Concrete demand line used by witnesses: 50 units of material 1. -/
def wOrder : Order :=
  { salesId := "D2", materialId := 1, custId := 7, goodsIssueDate := 2,
    qtyOrdered := 50, qtyConfirmed := 50 }

/-- Concrete supply line used by witnesses: 30 units of material 1. -/
def wSupply : SupplyRow :=
  { idx := 0, aufnr_zpa := some "S1", aufnr_zsem := none, material_id := 1,
    qty := 30, release_date := some 2, finish_date := none, batch := none,
    invent_location := none, remain_qty := 30 }

/-- Concrete stock snapshot used by witnesses: nothing in stock. -/
def wStock : Int → Option ℚ := fun _ => none

theorem no_overconsumption_witness :
    allocatedTo (allocationRun wStock [wOrder] [wSupply]) wSupply.idx
      ≤ wSupply.remain_qty := by
  have h := no_overconsumption wStock [wOrder] [wSupply] (by decide)
  exact h.1 wSupply (List.mem_cons_self _ _) (by decide)

/-- C9: a demand line with `qtyConfirmed ≤ 0` emits no record at all —
the consumption loop body and the shortage branch both require a strictly
positive residual need — and leaves `ofs_state` unchanged. -/
theorem nonpositive_demand_no_records (st : Int → List SupplyRow) (o : Order)
    (h : o.qtyConfirmed ≤ 0) : allocateStep st o = ([], st) := by
  have hc := consume_nonpos o o.qtyConfirmed (st o.materialId) (not_lt.mpr h)
  apply Prod.ext_iff.mpr
  constructor
  · show (consume o o.qtyConfirmed (st o.materialId)).1
        ++ (if 0 < (consume o o.qtyConfirmed (st o.materialId)).2.2
            then [shortageRecord o
                    (consume o o.qtyConfirmed (st o.materialId)).2.2]
            else []) = []
    rw [hc]
    show ([] : List AllocationRecord)
        ++ (if 0 < o.qtyConfirmed then [shortageRecord o o.qtyConfirmed]
            else []) = []
    rw [if_neg (not_lt.mpr h)]
    rfl
  · funext m
    show (if m = o.materialId
          then (consume o o.qtyConfirmed (st o.materialId)).2.1
          else st m) = st m
    rw [hc]
    by_cases hm : m = o.materialId
    · rw [if_pos hm, hm]
    · rw [if_neg hm]

/-- Concrete zero-quantity demand line of material 3. -/
def zOrderB : Order :=
  { salesId := "Z2", materialId := 3, custId := 7, goodsIssueDate := 2,
    qtyOrdered := 0, qtyConfirmed := 0 }

theorem nonpositive_demand_no_records_witness :
    allocateStep (fun _ => ([] : List SupplyRow)) zOrderB
      = ([], fun _ => ([] : List SupplyRow)) :=
  nonpositive_demand_no_records (fun _ => []) zOrderB (by decide)

/-- C5: shortage exactness.  The shortage rows of one order's output block
(the records with no supply reference) are exactly one record carrying the
residual need when that residual is positive, and none otherwise; the
residual equals `qtyConfirmed` minus the supply-backed total, it is never
negative (for a non-negative demand), and the shortage record's
supply-derived fields are all null. -/
theorem shortage_exact (st : Int → List SupplyRow) (o : Order) :
    ((allocateStep st o).1.filter (fun r => r.supplyIdx.isNone))
      = (if 0 < (consume o o.qtyConfirmed (st o.materialId)).2.2
         then [shortageRecord o
                 (consume o o.qtyConfirmed (st o.materialId)).2.2]
         else [])
    ∧ ((consume o o.qtyConfirmed (st o.materialId)).1.map
          (fun r => r.qtyConfirmed)).sum
        = o.qtyConfirmed - (consume o o.qtyConfirmed (st o.materialId)).2.2
    ∧ (0 ≤ o.qtyConfirmed →
        0 ≤ (consume o o.qtyConfirmed (st o.materialId)).2.2)
    ∧ ∀ q : ℚ, (shortageRecord o q).qtyConfirmed = q
        ∧ (shortageRecord o q).ofZpa = none
        ∧ (shortageRecord o q).ofZsem = none
        ∧ (shortageRecord o q).qtyOfZpa = none
        ∧ (shortageRecord o q).releaseDate = none
        ∧ (shortageRecord o q).finishDate = none
        ∧ (shortageRecord o q).batchNumber = none
        ∧ (shortageRecord o q).inventLocation = none := by
  refine ⟨?_, consume_sum o (st o.materialId) o.qtyConfirmed,
    consume_left_nonneg o (st o.materialId) o.qtyConfirmed,
    fun q => ⟨rfl, rfl, rfl, rfl, rfl, rfl, rfl, rfl⟩⟩
  show ((consume o o.qtyConfirmed (st o.materialId)).1
        ++ (if 0 < (consume o o.qtyConfirmed (st o.materialId)).2.2
            then [shortageRecord o
                    (consume o o.qtyConfirmed (st o.materialId)).2.2]
            else [])).filter (fun r => r.supplyIdx.isNone) = _
  rw [List.filter_append]
  have h1 : ((consume o o.qtyConfirmed (st o.materialId)).1.filter
      (fun r => r.supplyIdx.isNone)) = [] := by
    rw [List.filter_eq_nil_iff]
    intro r hr
    obtain ⟨s₀, -, hrec, -⟩ :=
      consume_recs o (st o.materialId) o.qtyConfirmed r hr
    rw [hrec]
    simp [mkAllocationRecord]
  have h2 : ((if 0 < (consume o o.qtyConfirmed (st o.materialId)).2.2
      then [shortageRecord o
              (consume o o.qtyConfirmed (st o.materialId)).2.2]
      else []).filter (fun r => r.supplyIdx.isNone))
      = (if 0 < (consume o o.qtyConfirmed (st o.materialId)).2.2
         then [shortageRecord o
                 (consume o o.qtyConfirmed (st o.materialId)).2.2]
         else []) := by
    split
    · simp [shortageRecord]
    · rfl
  rw [h1, h2]
  rfl

theorem shortage_exact_witness :
    ((allocateStep (fun _ => ([] : List SupplyRow)) wOrder).1.filter
        (fun r => r.supplyIdx.isNone)) = [shortageRecord wOrder 50]
    ∧ 0 ≤ (consume wOrder wOrder.qtyConfirmed ([] : List SupplyRow)).2.2 := by
  have h := shortage_exact (fun _ => ([] : List SupplyRow)) wOrder
  refine ⟨?_, h.2.2.1 (by decide)⟩
  rw [h.1]
  decide

/-! ### Block decomposition and conservation -/

theorem allocateS_eq_blocks :
    ∀ (os : List Order) (st : Int → List SupplyRow),
      (allocateS os st).1 = (allocBlocks os st).flatten
  | [], _ => rfl
  | o :: rest, st => by
    show (allocateStep st o).1 ++ (allocateS rest (allocateStep st o).2).1 = _
    rw [allocateS_eq_blocks rest (allocateStep st o).2]
    rfl

theorem allocateStep_sum (st : Int → List SupplyRow) (o : Order)
    (h : 0 ≤ o.qtyConfirmed) :
    ((allocateStep st o).1.map (fun r => r.qtyConfirmed)).sum
      = o.qtyConfirmed := by
  have hsum := consume_sum o (st o.materialId) o.qtyConfirmed
  have hnn := consume_left_nonneg o (st o.materialId) o.qtyConfirmed h
  show (((consume o o.qtyConfirmed (st o.materialId)).1
        ++ (if 0 < (consume o o.qtyConfirmed (st o.materialId)).2.2
            then [shortageRecord o
                    (consume o o.qtyConfirmed (st o.materialId)).2.2]
            else [])).map (fun r => r.qtyConfirmed)).sum = o.qtyConfirmed
  rw [List.map_append, List.sum_append, hsum]
  by_cases hl : 0 < (consume o o.qtyConfirmed (st o.materialId)).2.2
  · rw [if_pos hl]
    simp only [List.map_cons, List.map_nil, List.sum_cons, List.sum_nil,
      shortageRecord]
    ring
  · rw [if_neg hl]
    have h0 : (consume o o.qtyConfirmed (st o.materialId)).2.2 = 0 :=
      le_antisymm (not_lt.mp hl) hnn
    rw [List.map_nil, List.sum_nil, h0]
    ring

theorem cumulativeDemand_fst :
    ∀ (os : List Order) (acc : Int → ℚ),
      (cumulativeDemand os acc).map (fun oc => oc.1) = os
  | [], _ => rfl
  | o :: rest, acc => by
    simp only [cumulativeDemand, List.map_cons]
    rw [cumulativeDemand_fst rest]

theorem ordersToProcess_mem (stock_map : Int → Option ℚ) (os : List Order) :
    ∀ o ∈ ordersToProcess stock_map os, o ∈ os := by
  intro o ho
  unfold ordersToProcess at ho
  obtain ⟨oc, hoc, rfl⟩ := List.mem_map.mp ho
  have h1 : oc ∈ cumulativeDemand os (fun _ => 0) :=
    (List.mem_filter.mp hoc).1
  have h2 := cumulativeDemand_fst os (fun _ => 0)
  rw [← h2]
  exact List.mem_map_of_mem _ h1

theorem blocks_sum :
    ∀ (os : List Order) (st : Int → List SupplyRow),
      (∀ o ∈ os, 0 ≤ o.qtyConfirmed) →
      List.Forall₂
        (fun bl o => (bl.map (fun r => r.qtyConfirmed)).sum = o.qtyConfirmed)
        (allocBlocks os st) os
  | [], _, _ => List.Forall₂.nil
  | o :: rest, st, h => by
    show List.Forall₂ _
      ((allocateStep st o).1 :: allocBlocks rest (allocateStep st o).2)
      (o :: rest)
    exact List.Forall₂.cons
      (allocateStep_sum st o (h o (List.mem_cons_self o rest)))
      (blocks_sum rest _ (fun q hq => h q (List.mem_cons_of_mem o hq)))

/-- C2: conservation.  The allocation output is the concatenation of one
record block per processed (not stock-covered) demand line, and for every
such line with non-negative `qtyConfirmed` the block's `QtyConfirmed`
values (supply-backed takes plus any shortage record) sum exactly to the
line's `qtyConfirmed` — exact rational arithmetic, hence within any
tolerance. -/
theorem conservation (stock_map : Int → Option ℚ) (orders : List Order)
    (ofs : List SupplyRow) (h0 : ∀ o ∈ orders, 0 ≤ o.qtyConfirmed) :
    allocationRun stock_map orders ofs
      = (allocBlocks (ordersToProcess stock_map orders) (initState ofs)).flatten
    ∧ List.Forall₂
        (fun bl o => (bl.map (fun r => r.qtyConfirmed)).sum = o.qtyConfirmed)
        (allocBlocks (ordersToProcess stock_map orders) (initState ofs))
        (ordersToProcess stock_map orders) := by
  constructor
  · exact allocateS_eq_blocks (ordersToProcess stock_map orders) (initState ofs)
  · exact blocks_sum (ordersToProcess stock_map orders) (initState ofs)
      (fun o ho => h0 o (ordersToProcess_mem stock_map orders o ho))

theorem conservation_witness :
    allocationRun wStock [wOrder] [wSupply]
      = (allocBlocks (ordersToProcess wStock [wOrder]) (initState [wSupply])).flatten
    ∧ List.Forall₂
        (fun bl o => (bl.map (fun r => r.qtyConfirmed)).sum = o.qtyConfirmed)
        (allocBlocks (ordersToProcess wStock [wOrder]) (initState [wSupply]))
        (ordersToProcess wStock [wOrder]) :=
  conservation wStock [wOrder] [wSupply] (by decide)

/-! ### Empty supply partitions (C6) -/

/-- Concrete demand line of material 3 whose 5 units exceed the (empty)
stock, so that a following zero-quantity line of the same material is also
classified as not covered. -/
def zOrderA : Order :=
  { salesId := "Z1", materialId := 3, custId := 7, goodsIssueDate := 1,
    qtyOrdered := 5, qtyConfirmed := 5 }

/-- C6, counterexample to the claim as stated: with no stock and no supply,
both `Z1` (qty 5) and `Z2` (qty 0) of material 3 are processed — and
material 3's supply partition is empty — yet the run emits only the one
shortage record for `Z1`: the zero-quantity processed line `Z2` yields no
shortage record at all, contradicting "every processed demand line of that
material yields one full shortage record". -/
theorem empty_partition_cex :
    zOrderB ∈ ordersToProcess (fun _ => none) [zOrderA, zOrderB]
    ∧ (allocationRun (fun _ => none) [zOrderA, zOrderB] []).map
        (fun r => r.salesId) = ["Z1"] := by
  have h1 : ordersToProcess (fun _ => none) [zOrderA, zOrderB]
      = [zOrderA, zOrderB] := by
    simp [ordersToProcess, cumulativeDemand, availableStock, zOrderA, zOrderB]
  have h2 : allocationRun (fun _ => none) [zOrderA, zOrderB] []
      = [shortageRecord zOrderA 5] := by
    unfold allocationRun
    rw [h1]
    simp [allocateS, allocateStep, consume, initState, zOrderA, zOrderB]
  constructor
  · rw [h1]
    simp
  · rw [h2]
    rfl

/-- C6, amended: a material with no row in the prepared supply frame has an
empty partition in `ofs_state`; a processed demand line whose partition is
empty yields exactly one full shortage record when its `qtyConfirmed` is
strictly positive, and no record at all otherwise (the embedding is a total
function, so no input raises). -/
theorem empty_partition_shortage :
    (∀ (ofs : List SupplyRow) (m : Int),
        (∀ s ∈ ofs, ¬ s.material_id = m) → initState ofs m = [])
    ∧ (∀ (st : Int → List SupplyRow) (o : Order), st o.materialId = [] →
        (allocateStep st o).1
          = if 0 < o.qtyConfirmed then [shortageRecord o o.qtyConfirmed]
            else []) := by
  constructor
  · intro ofs m h
    unfold initState
    rw [List.filter_eq_nil_iff]
    intro s hs
    simpa using h s hs
  · intro st o hempty
    show (consume o o.qtyConfirmed (st o.materialId)).1
        ++ (if 0 < (consume o o.qtyConfirmed (st o.materialId)).2.2
            then [shortageRecord o
                    (consume o o.qtyConfirmed (st o.materialId)).2.2]
            else []) = _
    rw [hempty]
    show ([] : List AllocationRecord)
        ++ (if 0 < o.qtyConfirmed then [shortageRecord o o.qtyConfirmed]
            else []) = _
    rw [List.nil_append]

theorem empty_partition_shortage_witness :
    initState [wSupply] 3 = []
    ∧ (allocateStep (fun _ => ([] : List SupplyRow)) zOrderA).1
        = [shortageRecord zOrderA 5] := by
  have h := empty_partition_shortage
  constructor
  · exact h.1 [wSupply] 3 (by decide)
  · rw [h.2 (fun _ => []) zOrderA rfl]
    decide

/-! ### Lookup-miss handling (C8) -/

theorem loadSupplyGo_resolved (mm : String → Option Int) :
    ∀ (raws : List RawOf) (k : Nat) (s : SupplyRow),
      s ∈ loadSupplyGo mm k raws →
        ∃ raw ∈ raws, mm ((raw.matnr_zpa).getD "") = some s.material_id
  | [], _, s, hs => absurd hs (List.not_mem_nil s)
  | r :: rest, k, s, hs => by
    by_cases hr : (mm ((r.matnr_zpa).getD "")).isSome
    · obtain ⟨mid, hmid⟩ := Option.isSome_iff_exists.mp hr
      rw [show loadSupplyGo mm k (r :: rest)
            = mkSupplyRow k mid r :: loadSupplyGo mm (k + 1) rest by
          simp [loadSupplyGo, hmid]] at hs
      rcases List.mem_cons.mp hs with rfl | htail
      · exact ⟨r, List.mem_cons_self r rest, hmid⟩
      · obtain ⟨raw, hraw, hres⟩ :=
          loadSupplyGo_resolved mm rest (k + 1) s htail
        exact ⟨raw, List.mem_cons_of_mem r hraw, hres⟩
    · rw [show loadSupplyGo mm k (r :: rest) = loadSupplyGo mm (k + 1) rest by
          simp [loadSupplyGo, Option.not_isSome_iff_eq_none.mp hr]] at hs
      obtain ⟨raw, hraw, hres⟩ := loadSupplyGo_resolved mm rest (k + 1) s hs
      exact ⟨raw, List.mem_cons_of_mem r hraw, hres⟩

theorem loadSupplyGo_length (mm : String → Option Int) :
    ∀ (raws : List RawOf) (k : Nat),
      (loadSupplyGo mm k raws).length
        = (raws.filter
            (fun raw => (mm ((raw.matnr_zpa).getD "")).isSome)).length
  | [], _ => rfl
  | r :: rest, k => by
    by_cases hr : (mm ((r.matnr_zpa).getD "")).isSome
    · obtain ⟨mid, hmid⟩ := Option.isSome_iff_exists.mp hr
      rw [show loadSupplyGo mm k (r :: rest)
            = mkSupplyRow k mid r :: loadSupplyGo mm (k + 1) rest by
          simp [loadSupplyGo, hmid]]
      rw [List.filter_cons_of_pos (by simpa using hr), List.length_cons,
        List.length_cons, loadSupplyGo_length mm rest (k + 1)]
    · rw [show loadSupplyGo mm k (r :: rest) = loadSupplyGo mm (k + 1) rest by
          simp [loadSupplyGo, Option.not_isSome_iff_eq_none.mp hr]]
      rw [List.filter_cons_of_neg (by simpa using hr)]
      exact loadSupplyGo_length mm rest (k + 1)

/-- C8, counterexample to the claim as stated: a delta row of the sample
delivery fact whose customer and material lookups both miss is not dropped
— it stays in `insert_records` and is persisted with null foreign keys. -/
theorem lookup_miss_cex :
    (sampleInsertRecords (fun _ => none) (fun _ => none) "10"
        [sampleRawB]).map (fun r => (r.materialId, r.custId))
      = [((none : Option Int), (none : Option Int))] := by
  rfl

/-- C8, amended: in the availability engine's supply load, rows whose
material code has no surrogate key are dropped (every kept row is
resolvable, and exactly the resolvable rows are kept), and the remainder
continues; in the sample delivery fact, by contrast, no row is dropped —
every delta row is persisted, and a row whose material lookup misses is
persisted with a null `MaterialId`. -/
theorem lookup_miss_policy :
    (∀ (mm : String → Option Int) (raws : List RawOf) (s : SupplyRow),
        s ∈ loadSupply mm raws →
          ∃ raw ∈ raws, mm ((raw.matnr_zpa).getD "") = some s.material_id)
    ∧ (∀ (mm : String → Option Int) (raws : List RawOf),
        (loadSupply mm raws).length
          = (raws.filter
              (fun raw => (mm ((raw.matnr_zpa).getD "")).isSome)).length)
    ∧ (∀ (cm mm : String → Option Int) (dc : String)
        (rows : List SampleRaw),
        (sampleInsertRecords cm mm dc rows).length = rows.length)
    ∧ (∀ (cm mm : String → Option Int) (dc : String) (r : SampleRaw),
        mm r.matnr = none →
          (sampleInsertRow cm mm dc r).materialId = none) := by
  refine ⟨fun mm raws s hs => loadSupplyGo_resolved mm raws 0 s hs,
    fun mm raws => loadSupplyGo_length mm raws 0, ?_, ?_⟩
  · intro cm mm dc rows
    unfold sampleInsertRecords
    cases rows with
    | nil => rfl
    | cons r rs => rw [if_neg (by simp), List.length_map]
  · intro cm mm dc r h
    show mm r.matnr = none
    exact h

/-- Concrete raw supply row whose material code is `"M9"`. -/
def wRawOf : RawOf :=
  { aufnr_zsem := none, aufnr_zpa := some "OF1", matnr_zpa := some "M9",
    gltrs := some 20251010, gltri := none, gamng := 30, wemng := 0,
    charg := none, lgort := none }

theorem lookup_miss_policy_witness :
    (loadSupply (fun _ => none) [wRawOf]).length
      = ([wRawOf].filter
          (fun raw =>
            ((fun _ => (none : Option Int)) ((raw.matnr_zpa).getD "")).isSome)).length
    ∧ (sampleInsertRecords (fun _ => none) (fun _ => none) "10"
        [sampleRawB]).length = 1
    ∧ (sampleInsertRow (fun _ => none) (fun _ => none) "10"
        sampleRawB).materialId = none := by
  have h := lookup_miss_policy
  refine ⟨h.2.1 (fun _ => none) [wRawOf], ?_,
    h.2.2.2 (fun _ => none) (fun _ => none) "10" sampleRawB rfl⟩
  rw [h.2.2.1 (fun _ => none) (fun _ => none) "10" [sampleRawB]]
  rfl

/-! ### Phase A classification (C4) -/

/-- Placeholder demand line for positional (`getD`) access. -/
def dummyOrder : Order :=
  { salesId := "", materialId := 0, custId := 0, goodsIssueDate := 0,
    qtyOrdered := 0, qtyConfirmed := 0 }

/-- Spec-side formulation of the running per-material cumulative sum: the
sum of `qtyConfirmed` over the demand lines of material `m` among the
first `i + 1` lines, in input order.  Stated non-incrementally, to be
compared with the engine's accumulator-based `cumulativeDemand`. -/
def specCumSum (orders : List Order) (i : Nat) (m : Int) : ℚ :=
  (((orders.take (i + 1)).filter (fun o => decide (o.materialId = m))).map
    (fun o => o.qtyConfirmed)).sum

theorem specCumSum_zero_cons (o : Order) (rest : List Order) :
    specCumSum (o :: rest) 0 o.materialId = o.qtyConfirmed := by
  simp [specCumSum]

theorem specCumSum_succ_cons (o : Order) (rest : List Order) (i : Nat)
    (m : Int) :
    specCumSum (o :: rest) (i + 1) m
      = (if o.materialId = m then o.qtyConfirmed else 0)
          + specCumSum rest i m := by
  unfold specCumSum
  rw [List.take_succ_cons]
  by_cases hm : o.materialId = m
  · rw [List.filter_cons_of_pos (by simpa using hm), List.map_cons,
      List.sum_cons, if_pos hm]
  · rw [List.filter_cons_of_neg (by simpa using hm), if_neg hm]
    ring_nf

theorem cumulativeDemand_getD :
    ∀ (os : List Order) (acc : Int → ℚ) (i : Nat), i < os.length →
      ((cumulativeDemand os acc).getD i (dummyOrder, 0)).1
          = os.getD i dummyOrder
      ∧ ((cumulativeDemand os acc).getD i (dummyOrder, 0)).2
          = acc ((os.getD i dummyOrder).materialId)
            + specCumSum os i ((os.getD i dummyOrder).materialId)
  | [], _, i, hi => absurd hi (by simp)
  | o :: rest, acc, 0, _ => by
    constructor
    · rfl
    · show acc o.materialId + o.qtyConfirmed
        = acc ((o :: rest).getD 0 dummyOrder).materialId
          + specCumSum (o :: rest) 0 ((o :: rest).getD 0 dummyOrder).materialId
      rw [List.getD_cons_zero, specCumSum_zero_cons]
  | o :: rest, acc, i + 1, hi => by
    have hi' : i < rest.length := by
      simpa [Nat.succ_lt_succ_iff] using hi
    have ih := cumulativeDemand_getD rest
      (fun m => if m = o.materialId
        then acc o.materialId + o.qtyConfirmed else acc m) i hi'
    constructor
    · show ((cumulativeDemand rest _).getD i (dummyOrder, 0)).1
        = (o :: rest).getD (i + 1) dummyOrder
      rw [List.getD_cons_succ]
      exact ih.1
    · show ((cumulativeDemand rest _).getD i (dummyOrder, 0)).2 = _
      rw [ih.2, List.getD_cons_succ, specCumSum_succ_cons]
      dsimp only
      by_cases hm : o.materialId = (rest.getD i dummyOrder).materialId
      · rw [if_pos hm.symm, if_pos hm, ← hm]
        ring
      · rw [if_neg (fun hc => hm hc.symm), if_neg hm]
        ring

theorem ordersToProcess_range :
    ∀ (stock_map : Int → Option ℚ) (os : List Order) (acc : Int → ℚ),
      ((cumulativeDemand os acc).filter
          (fun oc =>
            !decide (oc.2 ≤ availableStock stock_map oc.1.materialId))).map
          (fun oc => oc.1)
        = ((List.range os.length).filter
            (fun i =>
              !decide (acc ((os.getD i dummyOrder).materialId)
                  + specCumSum os i ((os.getD i dummyOrder).materialId)
                ≤ availableStock stock_map
                    ((os.getD i dummyOrder).materialId)))).map
            (fun i => os.getD i dummyOrder)
  | _, [], _ => rfl
  | stock_map, o :: rest, acc => by
    have ih := ordersToProcess_range stock_map rest
      (fun m => if m = o.materialId
        then acc o.materialId + o.qtyConfirmed else acc m)
    rw [show cumulativeDemand (o :: rest) acc
          = (o, acc o.materialId + o.qtyConfirmed)
              :: cumulativeDemand rest
                  (fun m => if m = o.materialId
                    then acc o.materialId + o.qtyConfirmed else acc m)
        from rfl]
    rw [List.filter_cons, List.length_cons, List.range_succ_eq_map,
      List.filter_cons]
    have hhead :
        (!decide ((acc o.materialId + o.qtyConfirmed : ℚ)
            ≤ availableStock stock_map o.materialId))
          = (!decide (acc (((o :: rest).getD 0 dummyOrder).materialId)
              + specCumSum (o :: rest) 0
                  (((o :: rest).getD 0 dummyOrder).materialId)
            ≤ availableStock stock_map
                (((o :: rest).getD 0 dummyOrder).materialId))) := by
      rw [List.getD_cons_zero, specCumSum_zero_cons]
    have htail :
        (((List.range rest.length).map Nat.succ).filter
            (fun i =>
              !decide (acc (((o :: rest).getD i dummyOrder).materialId)
                  + specCumSum (o :: rest) i
                      (((o :: rest).getD i dummyOrder).materialId)
                ≤ availableStock stock_map
                    (((o :: rest).getD i dummyOrder).materialId)))).map
            (fun i => (o :: rest).getD i dummyOrder)
          = ((List.range rest.length).filter
              (fun i =>
                !decide ((if (rest.getD i dummyOrder).materialId = o.materialId
                      then acc o.materialId + o.qtyConfirmed
                      else acc ((rest.getD i dummyOrder).materialId))
                    + specCumSum rest i ((rest.getD i dummyOrder).materialId)
                  ≤ availableStock stock_map
                      ((rest.getD i dummyOrder).materialId)))).map
              (fun i => rest.getD i dummyOrder) := by
      rw [List.filter_map, List.map_map]
      refine congrArg₂ _ ?_ ?_
      · funext i
        show (o :: rest).getD (i + 1) dummyOrder = rest.getD i dummyOrder
        rw [List.getD_cons_succ]
      · apply List.filter_congr
        intro i _
        show (!decide (acc (((o :: rest).getD (i + 1) dummyOrder).materialId)
            + specCumSum (o :: rest) (i + 1)
                (((o :: rest).getD (i + 1) dummyOrder).materialId)
          ≤ availableStock stock_map
              (((o :: rest).getD (i + 1) dummyOrder).materialId))) = _
        rw [List.getD_cons_succ, specCumSum_succ_cons]
        by_cases hm : o.materialId = (rest.getD i dummyOrder).materialId
        · rw [if_pos hm, if_pos hm.symm, hm, ← add_assoc]
        · rw [if_neg hm, if_neg (fun hc => hm hc.symm), zero_add]
    by_cases hb : ((!decide ((acc o.materialId + o.qtyConfirmed : ℚ)
        ≤ availableStock stock_map o.materialId)) = true)
    · rw [if_pos hb, if_pos (hhead ▸ hb), List.map_cons, List.map_cons,
        List.getD_cons_zero]
      exact congrArg (List.cons o) (ih.trans htail.symm)
    · rw [if_neg hb, if_neg (by rw [← hhead]; exact hb)]
      exact ih.trans htail.symm

/-- C4: Phase A classification.  (1) The engine's per-material cumulative
column equals the spec's running cumulative sum (over the material's
demand group, in input order) at every position.  (2) `orders_to_process`
consists of exactly the lines whose running cumulative sum is *not* `≤`
their material's available stock, in input order — so a line is covered
and dropped iff its cumulative sum is `≤` the material's `availableQty`.
(3) The allocation output is built solely from the blocks of the processed
lines, so a covered line contributes no record. -/
theorem phaseA_classification (stock_map : Int → Option ℚ)
    (orders : List Order) (ofs : List SupplyRow) :
    (∀ i, i < orders.length →
      ((cumulativeDemand orders (fun _ => 0)).getD i (dummyOrder, 0)).2
        = specCumSum orders i ((orders.getD i dummyOrder).materialId))
    ∧ ordersToProcess stock_map orders
      = ((List.range orders.length).filter
          (fun i =>
            !decide (specCumSum orders i
                ((orders.getD i dummyOrder).materialId)
              ≤ availableStock stock_map
                  ((orders.getD i dummyOrder).materialId)))).map
          (fun i => orders.getD i dummyOrder)
    ∧ allocationRun stock_map orders ofs
        = (allocBlocks (ordersToProcess stock_map orders)
            (initState ofs)).flatten := by
  refine ⟨?_, ?_, allocateS_eq_blocks _ _⟩
  · intro i hi
    have h := (cumulativeDemand_getD orders (fun _ => 0) i hi).2
    rw [h]
    rw [zero_add]
  · have h := ordersToProcess_range stock_map orders (fun _ => 0)
    unfold ordersToProcess
    rw [h]
    refine congrArg _ ?_
    apply List.filter_congr
    intro i _
    rw [zero_add]

theorem phaseA_classification_witness :
    ((cumulativeDemand [zOrderA, zOrderB] (fun _ => 0)).getD 0
        (dummyOrder, 0)).2
      = specCumSum [zOrderA, zOrderB] 0
          (([zOrderA, zOrderB].getD 0 dummyOrder).materialId)
    ∧ ordersToProcess wStock [zOrderA, zOrderB]
      = ((List.range ([zOrderA, zOrderB] : List Order).length).filter
          (fun i =>
            !decide (specCumSum [zOrderA, zOrderB] i
                (([zOrderA, zOrderB].getD i dummyOrder).materialId)
              ≤ availableStock wStock
                  (([zOrderA, zOrderB].getD i dummyOrder).materialId)))).map
          (fun i => [zOrderA, zOrderB].getD i dummyOrder)
    ∧ allocationRun wStock [zOrderA, zOrderB] []
        = (allocBlocks (ordersToProcess wStock [zOrderA, zOrderB])
            (initState [])).flatten := by
  have h := phaseA_classification wStock [zOrderA, zOrderB] []
  exact ⟨h.1 0 (by decide), h.2.1, h.2.2⟩

/-! ### Supply-quantity frame property (C10) -/

theorem loadSupplyGo_idx_ge (mm : String → Option Int) :
    ∀ (raws : List RawOf) (k : Nat), ∀ s ∈ loadSupplyGo mm k raws, k ≤ s.idx
  | [], _, s, hs => absurd hs (List.not_mem_nil s)
  | r :: rest, k, s, hs => by
    revert hs
    unfold loadSupplyGo
    cases hmm : mm ((r.matnr_zpa).getD "") with
    | some mid =>
      intro hs
      rcases List.mem_cons.mp hs with rfl | htail
      · exact le_refl _
      · exact le_trans (Nat.le_succ k)
          (loadSupplyGo_idx_ge mm rest (k + 1) s htail)
    | none =>
      intro hs
      exact le_trans (Nat.le_succ k)
        (loadSupplyGo_idx_ge mm rest (k + 1) s hs)

theorem loadSupplyGo_idx_nodup (mm : String → Option Int) :
    ∀ (raws : List RawOf) (k : Nat),
      ((loadSupplyGo mm k raws).map (fun s => s.idx)).Nodup
  | [], _ => List.nodup_nil
  | r :: rest, k => by
    unfold loadSupplyGo
    cases hmm : mm ((r.matnr_zpa).getD "") with
    | some mid =>
      rw [List.map_cons, List.nodup_cons]
      refine ⟨?_, loadSupplyGo_idx_nodup mm rest (k + 1)⟩
      intro hmem
      obtain ⟨s, hs, hsk⟩ := List.mem_map.mp hmem
      have := loadSupplyGo_idx_ge mm rest (k + 1) s hs
      have hk : (mkSupplyRow k mid r).idx = k := rfl
      rw [hk] at hsk
      omega
    | none => exact loadSupplyGo_idx_nodup mm rest (k + 1)

theorem loadSupplyGo_from_raw (mm : String → Option Int) :
    ∀ (raws : List RawOf) (k : Nat), ∀ s ∈ loadSupplyGo mm k raws,
      ∃ raw ∈ raws, s = mkSupplyRow s.idx s.material_id raw
  | [], _, s, hs => absurd hs (List.not_mem_nil s)
  | r :: rest, k, s, hs => by
    revert hs
    unfold loadSupplyGo
    cases hmm : mm ((r.matnr_zpa).getD "") with
    | some mid =>
      intro hs
      rcases List.mem_cons.mp hs with rfl | htail
      · exact ⟨r, List.mem_cons_self r rest, rfl⟩
      · obtain ⟨raw, hraw, hform⟩ :=
          loadSupplyGo_from_raw mm rest (k + 1) s htail
        exact ⟨raw, List.mem_cons_of_mem r hraw, hform⟩
    | none =>
      intro hs
      obtain ⟨raw, hraw, hform⟩ := loadSupplyGo_from_raw mm rest (k + 1) s hs
      exact ⟨raw, List.mem_cons_of_mem r hraw, hform⟩

/-- Every row of every partition of `st` carries the ghost identity and
the (immutable) `qty` of some row of `pool`. -/
def RowsFrom (st : Int → List SupplyRow) (pool : List SupplyRow) : Prop :=
  ∀ m, ∀ s ∈ st m, ∃ s₀ ∈ pool, s.idx = s₀.idx ∧ s.qty = s₀.qty

theorem allocateStep_rowsFrom (st : Int → List SupplyRow) (o : Order)
    (pool : List SupplyRow) (h : RowsFrom st pool) :
    RowsFrom (allocateStep st o).2 pool
    ∧ ∀ r ∈ (allocateStep st o).1, ∀ i, r.supplyIdx = some i →
        ∃ s₀ ∈ pool, s₀.idx = i ∧ r.qtyOfZpa = some s₀.qty := by
  constructor
  · intro m s hs
    by_cases hm : m = o.materialId
    · have hsm : s ∈ (consume o o.qtyConfirmed (st o.materialId)).2.1 := by
        have : (allocateStep st o).2 m
            = (consume o o.qtyConfirmed (st o.materialId)).2.1 := if_pos hm
        rw [this] at hs
        exact hs
      obtain ⟨s₁, hs₁, hidx, hqty, -⟩ :=
        consume_state o (st o.materialId) o.qtyConfirmed s hsm
      obtain ⟨s₀, hs₀, hidx0, hqty0⟩ := h o.materialId s₁ hs₁
      exact ⟨s₀, hs₀, hidx.trans hidx0, hqty.trans hqty0⟩
    · have : (allocateStep st o).2 m = st m := if_neg hm
      rw [this] at hs
      exact h m s hs
  · intro r hr i hi
    have hr' : r ∈ (consume o o.qtyConfirmed (st o.materialId)).1
        ∨ r ∈ (if 0 < (consume o o.qtyConfirmed (st o.materialId)).2.2
            then [shortageRecord o
                    (consume o o.qtyConfirmed (st o.materialId)).2.2]
            else []) := List.mem_append.mp hr
    rcases hr' with hc | hshort
    · obtain ⟨s₁, hs₁, hrec, -⟩ :=
        consume_recs o (st o.materialId) o.qtyConfirmed r hc
      have hridx : r.supplyIdx = some s₁.idx := by rw [hrec]; rfl
      have hrqty : r.qtyOfZpa = some s₁.qty := by rw [hrec]; rfl
      obtain ⟨s₀, hs₀, hidx0, hqty0⟩ := h o.materialId s₁ hs₁
      refine ⟨s₀, hs₀, ?_, by rw [hrqty, hqty0]⟩
      rw [hridx] at hi
      rw [← hidx0]
      exact (Option.some.injEq _ _ ▸ hi).symm ▸ rfl
    · exfalso
      revert hshort
      split
      · intro hshort
        have : r = shortageRecord o
            (consume o o.qtyConfirmed (st o.materialId)).2.2 :=
          List.mem_singleton.mp hshort
        rw [this] at hi
        exact Option.noConfusion hi
      · intro hshort
        exact List.not_mem_nil r hshort

theorem allocateS_rowsFrom :
    ∀ (os : List Order) (st : Int → List SupplyRow)
      (pool : List SupplyRow), RowsFrom st pool →
      RowsFrom (allocateS os st).2 pool
      ∧ ∀ r ∈ (allocateS os st).1, ∀ i, r.supplyIdx = some i →
          ∃ s₀ ∈ pool, s₀.idx = i ∧ r.qtyOfZpa = some s₀.qty
  | [], _, _, h => ⟨h, by intro r hr; exact absurd hr (List.not_mem_nil r)⟩
  | o :: rest, st, pool, h => by
    obtain ⟨hstep, hrec⟩ := allocateStep_rowsFrom st o pool h
    obtain ⟨hrest, hrecs⟩ :=
      allocateS_rowsFrom rest (allocateStep st o).2 pool hstep
    refine ⟨hrest, ?_⟩
    intro r hr i hi
    have : r ∈ (allocateStep st o).1
        ∨ r ∈ (allocateS rest (allocateStep st o).2).1 :=
      List.mem_append.mp hr
    rcases this with h1 | h2
    · exact hrec r h1 i hi
    · exact hrecs r h2 i hi

/-- C10: the supply quantity field of every supply-backed record is the
referenced supply row's load-time `qty = gamng − wemng`, never the mutated
`remain_qty`; `qty` equals `remain_qty` at load time and is never changed
by allocation, so all records referencing the same supply row report the
identical original value. -/
theorem supply_qty_frame (stock_map : Int → Option ℚ) (orders : List Order)
    (mm : String → Option Int) (raws : List RawOf) (ofs : List SupplyRow)
    (hperm : ofs.Perm (loadSupply mm raws)) :
    ∀ r ∈ allocationRun stock_map orders ofs, ∀ i, r.supplyIdx = some i →
      (∃ s ∈ loadSupply mm raws, s.idx = i ∧ r.qtyOfZpa = some s.qty
        ∧ s.remain_qty = s.qty
        ∧ ∃ raw ∈ raws, s.qty = rawRemainQty raw)
      ∧ ∀ r' ∈ allocationRun stock_map orders ofs, r'.supplyIdx = some i →
          r'.qtyOfZpa = r.qtyOfZpa := by
  have hfrom : RowsFrom (initState ofs) (loadSupply mm raws) := by
    intro m s hs
    have hmem := ((initState_mem ofs m s).mp hs).1
    exact ⟨s, hperm.mem_iff.mp hmem, rfl, rfl⟩
  have hrec := (allocateS_rowsFrom (ordersToProcess stock_map orders)
    (initState ofs) (loadSupply mm raws) hfrom).2
  intro r hr i hi
  obtain ⟨s, hsmem, hsidx, hsqty⟩ := hrec r hr i hi
  constructor
  · obtain ⟨raw, hraw, hform⟩ := loadSupplyGo_from_raw mm raws 0 s hsmem
    refine ⟨s, hsmem, hsidx, hsqty, ?_, raw, hraw, ?_⟩
    · rw [hform]
      rfl
    · rw [hform]
      rfl
  · intro r' hr' hi'
    obtain ⟨s', hsmem', hsidx', hsqty'⟩ := hrec r' hr' i hi'
    have hss : s' = s :=
      List.inj_on_of_nodup_map (loadSupplyGo_idx_nodup mm raws 0) hsmem'
        hsmem (by rw [hsidx', hsidx])
    rw [hsqty', hsqty, hss]

/-- Concrete demand line of material 9 used by the C10 witness. -/
def wOrder9 : Order :=
  { salesId := "D9", materialId := 9, custId := 7, goodsIssueDate := 1,
    qtyOrdered := 30, qtyConfirmed := 30 }

/-- Concrete material lookup resolving code `"M9"` to surrogate key 9. -/
def mm9 : String → Option Int := fun c => if c = "M9" then some 9 else none

theorem supply_qty_frame_witness :
    (mkAllocationRecord wOrder9 (mkSupplyRow 0 9 wRawOf)
        (30 : ℚ)).qtyOfZpa = some (rawRemainQty wRawOf) := by
  have hload : loadSupply mm9 [wRawOf] = [mkSupplyRow 0 9 wRawOf] := rfl
  have h1 : ordersToProcess wStock [wOrder9] = [wOrder9] := by
    simp [ordersToProcess, cumulativeDemand, availableStock, wStock, wOrder9]
  have hrun : allocationRun wStock [wOrder9] (loadSupply mm9 [wRawOf])
      = [mkAllocationRecord wOrder9 (mkSupplyRow 0 9 wRawOf) 30] := by
    unfold allocationRun
    rw [h1]
    simp [allocateS, allocateStep, consume, initState, wOrder9, mkSupplyRow,
      rawRemainQty, wRawOf]
    norm_num
  have h := supply_qty_frame wStock [wOrder9] mm9 [wRawOf]
    (loadSupply mm9 [wRawOf]) (List.Perm.refl _)
  obtain ⟨⟨s, hsmem, hsidx, hq, hrq, raw, hraw, hqr⟩, -⟩ :=
    h (mkAllocationRecord wOrder9 (mkSupplyRow 0 9 wRawOf) 30)
      (by rw [hrun]; exact List.mem_cons_self _ _) 0 rfl
  have hse : s = mkSupplyRow 0 9 wRawOf := by
    rw [hload] at hsmem
    exact List.mem_singleton.mp hsmem
  rw [hq, hse]
  rfl

end BiV2
